import Mathlib

/-!
Verification development for the translation pipeline in `translate.py`
(repository `TraslatePDF`): a shallow embedding of the retry-based
translation loop (`translate_with_context`), the Ollama orchestration loop
with its context window, the layout-aware phrase grouper
(`extract_text_with_layout`) and the formatting preserver
(`apply_translation_with_formatting`), together with theorems about the
properties the specification states for them.
-/

namespace TranslatePDF

/-- The single-quote character `'` as a string. -/
def squote : String := "\x27"

/-- The double-quote character as a string. -/
def dquote : String := "\""

/-- Python `s.startswith(p)`, computed structurally on the underlying
character lists. -/
def pyStartsWith (s p : String) : Bool := p.data.isPrefixOf s.data

/-- Python `s.endswith(p)`, computed structurally on the underlying
character lists. -/
def pyEndsWith (s p : String) : Bool := p.data.isSuffixOf s.data

/-- Python `s[n:]`: drop the first `n` characters. -/
def pyDrop (s : String) (n : Nat) : String := ⟨s.data.drop n⟩

/-- Python `s[:-n]`: drop the last `n` characters. -/
def pyDropRight (s : String) (n : Nat) : String :=
  ⟨s.data.take (s.data.length - n)⟩

/-- Python `s.strip()`: remove leading and trailing whitespace. -/
def pyTrim (s : String) : String :=
  ⟨((s.data.dropWhile Char.isWhitespace).reverse.dropWhile
      Char.isWhitespace).reverse⟩

/-- ASCII lower-casing of a character code, as `str.lower` acts on the
ASCII range relevant to the `translated:` prefix test. -/
def lowerCode (n : Nat) : Nat := if 65 ≤ n ∧ n ≤ 90 then n + 32 else n

/-- Python `s.lower().startswith(p)` for an ASCII pattern `p`: the first
`len(p)` characters of `s`, lower-cased, equal `p`. -/
def pyLowerStartsWith (s p : String) : Bool :=
  (s.data.take p.data.length).map (fun c => lowerCode c.toNat) ==
    p.data.map Char.toNat

/-- Strip one matching leading/trailing quotation-mark pair (double or single)
and trim, mirroring `translation[1:-1].strip()` guarded by the
startswith/endswith tests at lines 62-65 of `translate.py` (and the identical
code at lines 348-351). When no matching pair surrounds the string it is
returned unchanged. -/
def stripQuotes (s : String) : String :=
  if pyStartsWith s dquote && pyEndsWith s dquote then
    pyTrim (pyDropRight (pyDrop s 1) 1)
  else if pyStartsWith s squote && pyEndsWith s squote then
    pyTrim (pyDropRight (pyDrop s 1) 1)
  else s

/-- Extract the answer from the backend stdout, given as a list of lines
(lines 56-67 of `translate.py`): the first line that starts, case
insensitively, with the literal `translated:` yields the rest of that line
(`line[11:]`), trimmed and quote-stripped; `none` when no line matches. -/
def findTranslated : List String → Option String
  | [] => none
  | line :: rest =>
    if pyLowerStartsWith line ("translated:") then
      some (stripQuotes (pyTrim (pyDrop line 11)))
    else
      findTranslated rest

/-- Variant of `findTranslated` without the quote stripping step, used to
state exactly where in the prompt-driven pipeline quote stripping happens. -/
def findTranslatedRaw : List String → Option String
  | [] => none
  | line :: rest =>
    if pyLowerStartsWith line ("translated:") then
      some (pyTrim (pyDrop line 11))
    else
      findTranslatedRaw rest

/-- The retry loop of `translate_with_context` (line 28 of `translate.py`):
`backend k` is the stdout, split into lines, of the k-th subprocess
invocation (`ollama run`), so the nondeterminism of the external process is
captured by the scripted function. The result is the parsed answer of the
first attempt whose output parses, paired with the number of backend
invocations actually performed; the first argument of the recursion is the
index of the next attempt, the second the number of attempts left. -/
def runAttempts (backend : Nat → List String) : Nat → Nat → Option String × Nat
  | _, 0 => (none, 0)
  | attempt, remaining + 1 =>
    match findTranslated (backend attempt) with
    | some t => (some t, 1)
    | none =>
      let r := runAttempts backend (attempt + 1) remaining
      (r.1, r.2 + 1)

/-- Model of `translate_with_context` (lines 24-74 of `translate.py`):
`max_retries + 1` loop iterations; each iteration invokes the backend once
and returns immediately when a `translated:` line is found; after the loop
the failure marker is returned with `max_retries` interpolated into it.
The context argument of the Python function only affects the prompt text,
which the scripted `backend` abstracts over, so it is not a parameter here. -/
def translate_with_context (backend : Nat → List String) (text : String)
    (maxRetries : Nat) : String :=
  match (runAttempts backend 0 (maxRetries + 1)).1 with
  | some t => t
  | none =>
    "[TRANSLATION FAILED AFTER " ++ toString maxRetries ++ " RETRIES] " ++ text

/-- Number of backend invocations `translate_with_context` performs. -/
def attemptsMade (backend : Nat → List String) (maxRetries : Nat) : Nat :=
  (runAttempts backend 0 (maxRetries + 1)).2

/-- The last `n` elements of a list, in order: Python `l[-n:]`. -/
def lastN (n : Nat) (l : List α) : List α := l.drop (l.length - n)

/-- The context actually rendered into the prompt by `translate_with_context`
(line 33 of `translate.py`): `context_paragraphs[-3:]`, the last three
entries of the list that was passed in, oldest first. -/
def promptContext (ctx : List String) : List String := lastN 3 ctx

/-- Append a successful translation to the context window and evict the
oldest entry once the window holds more than 5 entries (lines 370-373 of
`translate.py`: `translated_context.append(...)` followed by `pop(0)` when
`len > 5`). -/
def pushContext (ctx : List String) (t : String) : List String :=
  let ctx2 := ctx ++ [t]
  if ctx2.length > 5 then ctx2.tail else ctx2

/-- Scripted behaviour of the backend for one unit: either the subprocess
call raises an exception that escapes `translate_with_context`, or every
attempt returns captured stdout (given per attempt index, as lines). -/
inductive Behavior where
  | raises
  | responds (outputs : Nat → List String)

/-- One translatable unit of the Ollama loop, with its scripted backend
behaviour and whether `apply_translation_with_formatting` will succeed on its
destination paragraph. -/
structure UnitScript where
  original : String
  behavior : Behavior
  formattingOk : Bool

/-- Highlight colours used by the loop (`WD_COLOR_INDEX.RED` / `.YELLOW`). -/
inductive HColor where
  | red
  | yellow
  deriving DecidableEq

/-- Visible styling applied to a paragraph by the result-rendering code:
highlight colour, font colour as an RGB triple, and forced bold. -/
structure Style where
  highlight : Option HColor
  textColor : Option (Nat × Nat × Nat)
  bold : Bool
  deriving DecidableEq

/-- Styling of failed translations (lines 362-364 and 385-387): red
highlight, white text, bold. -/
def failStyle : Style := ⟨some HColor.red, some (255, 255, 255), true⟩

/-- Styling of the Ollama formatting-failure fallback (lines 405-407): yellow
highlight, blue text, bold. -/
def ollamaFormatErrStyle : Style := ⟨some HColor.yellow, some (0, 0, 255), true⟩

/-- Styling of the NLLB formatting-failure fallback (lines 269-271): yellow
highlight, red text, bold. -/
def nllbFormatErrStyle : Style := ⟨some HColor.yellow, some (255, 0, 0), true⟩

/-- No error styling: the successful path keeps the preserved formatting and
adds no highlight. -/
def noHighlight : Style := ⟨none, none, false⟩

/-- Post-processing the Ollama loop applies to the value returned by
`translate_with_context` (lines 343-351 of `translate.py`): strip a
residual `translated:` prefix, then strip a surrounding quote pair. -/
def postProcess (t : String) : String :=
  let t1 := if pyLowerStartsWith t ("translated:") then pyTrim (pyDrop t 11)
            else t
  stripQuotes t1

/-- The translated text the Ollama loop computes for a unit, `none` when the
backend call raises (lines 339-351). -/
def unitTranslated (u : UnitScript) : Option String :=
  match u.behavior with
  | Behavior.raises => none
  | Behavior.responds outputs =>
    some (postProcess (translate_with_context outputs u.original 3))

/-- The successful translation of a unit, if any: `none` when the backend
raises or when the computed text is the retry-exhaustion marker recognised at
line 354 of `translate.py`. -/
def unitSuccess (u : UnitScript) : Option String :=
  match unitTranslated u with
  | none => none
  | some t =>
    if pyStartsWith t ("[TRANSLATION FAILED AFTER") then none else some t

/-- One iteration of the Ollama loop body (lines 312-412 of `translate.py`)
for a non-empty paragraph: result is the visible content and styling written
into the destination paragraph, paired with the context window after the
unit. The exception path (lines 376-390) writes the `[OLLAMA TRANSLATION
FAILED]` marker; the retry-exhaustion path (lines 354-367) writes the marker
returned by `translate_with_context`; otherwise the translation is recorded
into the context and formatting is attempted, falling back to the
`[OLLAMA FORMATTING ERROR - MANUAL REVIEW NEEDED]` marker (lines 396-410). -/
def processUnit (ctx : List String) (u : UnitScript) :
    (String × Style) × List String :=
  match u.behavior with
  | Behavior.raises =>
    (("[OLLAMA TRANSLATION FAILED] " ++ u.original, failStyle), ctx)
  | Behavior.responds outputs =>
    let t := postProcess (translate_with_context outputs u.original 3)
    if pyStartsWith t ("[TRANSLATION FAILED AFTER") then
      ((t, failStyle), ctx)
    else
      let ctx2 := pushContext ctx t
      if u.formattingOk then
        ((t, noHighlight), ctx2)
      else
        (("[OLLAMA FORMATTING ERROR - MANUAL REVIEW NEEDED] " ++ u.original,
          ollamaFormatErrStyle), ctx2)

/-- Context window evolution over one unit. -/
def ctxStep (ctx : List String) (u : UnitScript) : List String :=
  (processUnit ctx u).2

/-- Context window after processing a list of units in order. -/
def runCtx : List String → List UnitScript → List String
  | ctx, [] => ctx
  | ctx, u :: us => runCtx (ctxStep ctx u) us

/-- The successful translations of a run, in chronological order. -/
def successes (us : List UnitScript) : List String :=
  us.filterMap unitSuccess

/-- NLLB per-unit translation (lines 250-254 of `translate.py`): tokenize,
generate, decode. The external model pipeline is abstracted as a function
from the source text to the decoded output; the decoded output is assigned
to `translated_text` directly, with no post-processing of any kind. -/
def nllbTranslate (model : String → String) (text : String) : String :=
  model text

/-- The NLLB formatting-failure fallback (lines 263-271 of `translate.py`):
marker text containing the original, with yellow/red/bold styling. -/
def nllbFormatFallback (original : String) : String × Style :=
  ("[TRANSLATION ERROR - MANUAL REVIEW NEEDED] " ++ original,
   nllbFormatErrStyle)

/-- One positioned word as yielded by `page.extract_words()` in
`extract_text_with_layout` (lines 150-205 of `translate.py`): text plus the
coordinates `x0`, `top`, `x1`, `bottom`. Coordinates are modelled as
rationals. -/
structure Word where
  text : String
  x0 : ℚ
  top : ℚ
  x1 : ℚ
  bottom : ℚ
  deriving DecidableEq

/-- A bounding box `(x0, top, x1, bottom)` as stored under the `bbox` key. -/
structure BBox where
  x0 : ℚ
  top : ℚ
  x1 : ℚ
  bottom : ℚ
  deriving DecidableEq

/-- The bounding box of a single word. -/
def wordBox (w : Word) : BBox := ⟨w.x0, w.top, w.x1, w.bottom⟩

/-- Grow a bounding box to include a word's box (lines 176-181 of
`translate.py`): componentwise min of `x0`/`top`, max of `x1`/`bottom`. -/
def boxUnion (b : BBox) (w : Word) : BBox :=
  ⟨min b.x0 w.x0, min b.top w.top, max b.x1 w.x1, max b.bottom w.bottom⟩

/-- The coordinate union of a list of word boxes, `none` for the empty
list: the fold of `boxUnion` starting from the first word's own box. -/
def unionBoxes : List Word → Option BBox
  | [] => none
  | w :: ws => some (ws.foldl boxUnion (wordBox w))

/-- Join texts with single separating spaces, in order. -/
def spaceJoin : List String → String
  | [] => ""
  | t :: ts => ts.foldl (fun acc s => acc ++ " " ++ s) t

/-- The open phrase group of the grouping loop: the `current_group` dict of
`extract_text_with_layout`, including its `words` member list (the emitted
results drop the `words` key but are otherwise identical, so we keep it to
state membership invariants). -/
structure Group where
  text : String
  bbox : BBox
  page : Nat
  words : List Word
  deriving DecidableEq

/-- A fresh group seeded by one word (lines 159-164 and 191-196). -/
def newGroup (page : Nat) (w : Word) : Group :=
  ⟨w.text, wordBox w, page, [w]⟩

/-- Extend the open group with a word (lines 174-182): append text with one
space, grow the box to the union, append the word to the member list. -/
def extendGroup (g : Group) (w : Word) : Group :=
  ⟨g.text ++ " " ++ w.text, boxUnion g.bbox w, g.page, g.words ++ [w]⟩

/-- The last word added to the open group: `current_group["words"][-1]`
(line 168). The default is never reached because the member list is
non-empty by construction. -/
def lastWord (g : Group) : Word :=
  g.words.getLastD ⟨"", 0, 0, 0, 0⟩

/-- The merge test of lines 171-172 of `translate.py`, against the last
word added to the group: same line (`|Δtop| ≤ merge_threshold`) and close
horizontally (`word.x0 − prev.x1 ≤ merge_threshold * 2`), both inclusive. -/
def shouldMerge (mt : ℚ) (prev w : Word) : Bool :=
  decide (|w.top - prev.top| ≤ mt) && decide (w.x0 - prev.x1 ≤ mt * 2)

/-- The grouping loop over the remaining words of a page (lines 166-203),
carrying the open group: on merge the group is extended, otherwise the open
group is emitted and a fresh group is seeded; at the end of the page the
final open group is flushed (lines 198-203). -/
def groupLoop (mt : ℚ) (g : Group) : List Word → List Group
  | [] => [g]
  | w :: ws =>
    if shouldMerge mt (lastWord g) w then
      groupLoop mt (extendGroup g w) ws
    else
      g :: groupLoop mt (newGroup g.page w) ws

/-- Group the words of one page (page number `page`): an empty word list
yields no groups (`if not words: continue`, lines 155-156), otherwise the
loop runs with the first word seeding the open group. -/
def groupWords (mt : ℚ) (page : Nat) : List Word → List Group
  | [] => []
  | w :: ws => groupLoop mt (newGroup page w) ws

/-- Pages processed in order with 1-based page numbers starting at `n`. -/
def extractPagesFrom (mt : ℚ) : Nat → List (List Word) → List Group
  | _, [] => []
  | n, ws :: rest => groupWords mt n ws ++ extractPagesFrom mt (n + 1) rest

/-- Model of `extract_text_with_layout` (lines 150-205 of `translate.py`):
each page's word list is grouped independently, pages numbered from 1. -/
def extract_text_with_layout (mt : ℚ) (pages : List (List Word)) :
    List Group :=
  extractPagesFrom mt 1 pages

/-- Captured formatting of one run of a paragraph (lines 83-90 of
`translate.py`): tri-state bold/italic/underline, optional font name, size
and colour. -/
structure RunFmt where
  bold : Option Bool
  italic : Option Bool
  underline : Option Bool
  fontName : Option String
  fontSize : Option Nat
  color : Option (Nat × Nat × Nat)
  deriving DecidableEq

/-- A fresh run carries no explicit formatting. -/
def defaultRunFmt : RunFmt := ⟨none, none, none, none, none, none⟩

/-- Python truthiness of the optional font name (`if fmt['font_name']:`,
line 106): present and non-empty. -/
def truthyStr : Option String → Bool
  | none => false
  | some s => !(s == "")

/-- Python truthiness of the optional font size (`if fmt['font_size']:`,
line 108): present and non-zero. -/
def truthySize : Option Nat → Bool
  | none => false
  | some n => !(n == 0)

/-- The formatting carried by the new run after the guarded assignments of
lines 98-111 of `translate.py`: each attribute of the first captured run is
copied onto the fresh run only when its guard holds (`is not None` for the
tri-state attributes, truthiness for name and size, presence for colour);
every other attribute keeps the fresh-run default. -/
def appliedFmt (fmt : RunFmt) : RunFmt :=
  { bold := if fmt.bold.isSome then fmt.bold else none
    italic := if fmt.italic.isSome then fmt.italic else none
    underline := if fmt.underline.isSome then fmt.underline else none
    fontName := if truthyStr fmt.fontName then fmt.fontName else none
    fontSize := if truthySize fmt.fontSize then fmt.fontSize else none
    color := if fmt.color.isSome then fmt.color else none }

/-- The number of guarded attribute assignments executed for one captured
run formatting. -/
def attrStepCount (fmt : RunFmt) : Nat :=
  ([fmt.bold.isSome, fmt.italic.isSome, fmt.underline.isSome,
    truthyStr fmt.fontName, truthySize fmt.fontSize,
    fmt.color.isSome]).count true

/-- Fault injection for the destination-paragraph primitives: `faults n`
says whether the n-th primitive operation on the destination raises.
`runSteps faults a k` executes `k` consecutive primitives starting at
counter `a`, stopping at the first raised fault. -/
def runSteps (faults : Nat → Bool) : Nat → Nat → Except Unit Nat
  | a, 0 => Except.ok a
  | a, k + 1 =>
    if faults a then Except.error () else runSteps faults (a + 1) k

/-- The first captured run formatting, as used at line 99 of
`translate.py`; the default is the no-formatting record that results when
the paragraph had no runs. -/
def headFmtOf (runs : List RunFmt) : RunFmt :=
  runs.headD defaultRunFmt

/-- Number of destination primitives executed by the body of
`apply_translation_with_formatting`: one per captured run, one for
`paragraph.clear()`, one for `paragraph.add_run(...)`, and one per guarded
attribute assignment of the first captured formatting. -/
def bodySteps (runs : List RunFmt) : Nat :=
  runs.length + 2 +
    (match runs with
     | [] => 0
     | fmt :: _ => attrStepCount fmt)

/-- The formatting carried by the new run on body completion: when the
paragraph had runs, the guarded copy of the first run's formatting,
otherwise the fresh-run default (no attribute is applied, line 98). -/
def finalFmt (runs : List RunFmt) : RunFmt :=
  match runs with
  | [] => defaultRunFmt
  | fmt :: _ => appliedFmt fmt

/-- The body of `apply_translation_with_formatting` (lines 79-113 of
`translate.py`) before the enclosing try/except: read each run's
formatting (one primitive per run), clear the paragraph and add the new run
(one primitive each), then perform the guarded attribute assignments of the
first captured formatting (one primitive per executed assignment). On
completion the destination holds one run with the translated text and the
formatting given by `finalFmt`; a raised fault aborts the body. -/
def applyBody (faults : Nat → Bool) (runs : List RunFmt) (t : String) :
    Except Unit (String × RunFmt) :=
  match runSteps faults 0 (bodySteps runs) with
  | Except.error e => Except.error e
  | Except.ok _ => Except.ok (t, finalFmt runs)

/-- Model of `apply_translation_with_formatting` (lines 77-117 of
`translate.py`): the body runs under a catch-all handler, so the function
always returns a boolean — `true` exactly when the body completed. -/
def apply_translation_with_formatting (faults : Nat → Bool)
    (runs : List RunFmt) (t : String) : Bool :=
  match applyBody faults runs t with
  | Except.ok _ => true
  | Except.error _ => false

/-- Invariant of phrase groups: the bounding box is the coordinate union of
the member words' boxes and the text is the member texts joined by single
spaces, in encounter order. -/
def groupInv (g : Group) : Prop :=
  unionBoxes g.words = some g.bbox ∧
  g.text = spaceJoin (g.words.map Word.text)

/-! ## Helper lemmas -/

theorem runAttempts_all_fail (backend : Nat → List String) :
    ∀ (r a : Nat),
      (∀ k, a ≤ k → k < a + r → findTranslated (backend k) = none) →
      runAttempts backend a r = (none, r) := by
  intro r
  induction r with
  | zero => intro a _; rfl
  | succ n ih =>
    intro a h
    have h0 : findTranslated (backend a) = none := h a le_rfl (by omega)
    have h1 : runAttempts backend (a + 1) n = (none, n) :=
      ih (a + 1) (fun k hk1 hk2 => h k (by omega) (by omega))
    simp [runAttempts, h0, h1]

theorem findTranslated_eq_strip (lines : List String) :
    findTranslated lines = (findTranslatedRaw lines).map stripQuotes := by
  induction lines with
  | nil => rfl
  | cons line rest ih =>
    cases h : pyLowerStartsWith line ("translated:") <;>
      simp [findTranslated, findTranslatedRaw, h, ih]

theorem lastN_length_le (n : Nat) (l : List α) : (lastN n l).length ≤ n := by
  simp only [lastN, List.length_drop]
  omega

theorem lastN_suffix (n : Nat) (l : List α) : (lastN n l).IsSuffix l :=
  List.drop_suffix _ _

theorem lastN_lastN (m n : Nat) (l : List α) (h : m ≤ n) :
    lastN m (lastN n l) = lastN m l := by
  unfold lastN
  rw [List.length_drop, List.drop_drop]
  congr 1
  omega

theorem pushContext_lastN (s : List String) (t : String) :
    pushContext (lastN 5 s) t = lastN 5 (s ++ [t]) := by
  have hlen : (lastN 5 s ++ [t]).length = s.length - (s.length - 5) + 1 := by
    simp [lastN]
  rcases le_or_lt s.length 4 with h | h
  · have hc : ¬ (lastN 5 s ++ [t]).length > 5 := by rw [hlen]; omega
    calc pushContext (lastN 5 s) t = lastN 5 s ++ [t] := by
          simp only [pushContext]
          rw [if_neg hc]
      _ = s ++ [t] := by
          unfold lastN
          rw [Nat.sub_eq_zero_of_le (by omega), List.drop_zero]
      _ = lastN 5 (s ++ [t]) := by
          unfold lastN
          rw [Nat.sub_eq_zero_of_le (by simp; omega), List.drop_zero]
  · have hc : (lastN 5 s ++ [t]).length > 5 := by rw [hlen]; omega
    have hne : lastN 5 s ≠ [] := by
      apply List.ne_nil_of_length_pos
      simp only [lastN, List.length_drop]
      omega
    obtain ⟨a, as, ha⟩ := List.exists_cons_of_ne_nil hne
    calc pushContext (lastN 5 s) t = (lastN 5 s ++ [t]).tail := by
          simp only [pushContext]
          rw [if_pos hc]
      _ = (lastN 5 s).tail ++ [t] := by rw [ha]; rfl
      _ = s.drop (s.length - 4) ++ [t] := by
          unfold lastN
          rw [List.tail_drop]
          have he : s.length - 5 + 1 = s.length - 4 := by omega
          rw [he]
      _ = lastN 5 (s ++ [t]) := by
          unfold lastN
          rw [List.length_append, List.length_singleton,
            List.drop_append_of_le_length (by omega)]
          have he : s.length - 4 = s.length + 1 - 5 := by omega
          rw [he]

theorem mem_lastN_append_singleton (l : List α) (a : α) :
    a ∈ lastN 3 (l ++ [a]) := by
  unfold lastN
  have hk : (l ++ [a]).length - 3 ≤ l.length := by
    rw [List.length_append, List.length_singleton]
    omega
  rw [List.drop_append_of_le_length hk]
  simp

theorem pushContext_append (ctx : List String) (t : String) :
    ∃ l', pushContext ctx t = l' ++ [t] := by
  unfold pushContext
  by_cases h : (ctx ++ [t]).length > 5
  · rw [if_pos h]
    cases ctx with
    | nil => simp at h
    | cons x xs => exact ⟨xs, rfl⟩
  · rw [if_neg h]
    exact ⟨ctx, rfl⟩

theorem ctxStep_eq (ctx : List String) (u : UnitScript) :
    ctxStep ctx u =
      match unitSuccess u with
      | none => ctx
      | some t => pushContext ctx t := by
  obtain ⟨orig, b, fok⟩ := u
  cases b with
  | raises => rfl
  | responds outputs =>
    cases h : pyStartsWith (postProcess (translate_with_context outputs orig 3))
        ("[TRANSLATION FAILED AFTER") with
    | true => simp [ctxStep, processUnit, unitSuccess, unitTranslated, h]
    | false =>
      cases hf : fok <;>
        simp [ctxStep, processUnit, unitSuccess, unitTranslated, h, hf]

theorem runCtx_lastN (us : List UnitScript) :
    ∀ s : List String, runCtx (lastN 5 s) us = lastN 5 (s ++ successes us) := by
  induction us with
  | nil => intro s; simp [runCtx, successes]
  | cons u rest ih =>
    intro s
    cases hu : unitSuccess u with
    | none =>
      have hstep : ctxStep (lastN 5 s) u = lastN 5 s := by
        rw [ctxStep_eq, hu]
      rw [runCtx, hstep, ih s]
      simp [successes, List.filterMap_cons, hu]
    | some t =>
      have hstep : ctxStep (lastN 5 s) u = lastN 5 (s ++ [t]) := by
        rw [ctxStep_eq, hu]
        exact pushContext_lastN s t
      rw [runCtx, hstep, ih (s ++ [t])]
      simp [successes, List.filterMap_cons, hu]

theorem runCtx_nil_eq (us : List UnitScript) :
    runCtx [] us = lastN 5 (successes us) := by
  have h := runCtx_lastN us []
  simpa [lastN] using h

/-! ## Claim theorems -/

/-- C1: for a unit whose backend output contains no line beginning with the
expected `translated:` prefix on any attempt, `translate_with_context`
performs exactly `maxRetries + 1` backend invocations (the orchestrator
calls it with the default `maxRetries = 3`) and then returns the exhaustion
marker whose reported retry count is exactly `maxRetries`, rendered as
`[TRANSLATION FAILED AFTER <maxRetries> RETRIES]` followed by a space and
the original text. -/
theorem c1_retry_exhaustion (backend : Nat → List String) (text : String)
    (maxRetries : Nat)
    (h : ∀ k, k < maxRetries + 1 → findTranslated (backend k) = none) :
    attemptsMade backend maxRetries = maxRetries + 1 ∧
    translate_with_context backend text maxRetries =
      "[TRANSLATION FAILED AFTER " ++ toString maxRetries ++ " RETRIES] " ++
        text := by
  have h1 : runAttempts backend 0 (maxRetries + 1) = (none, maxRetries + 1) :=
    runAttempts_all_fail backend (maxRetries + 1) 0
      (fun k _ hk2 => h k (by omega))
  constructor
  · simp [attemptsMade, h1]
  · simp [translate_with_context, h1]

/-- Witness for C1 at the spec's scenario: four attempts with
`maxRetries = 3` and the rendered marker. -/
theorem c1_retry_exhaustion_witness :
    attemptsMade (fun _ => ["no answer"]) 3 = 4 ∧
    translate_with_context (fun _ => ["no answer"]) ("Dobry den") 3 =
      "[TRANSLATION FAILED AFTER 3 RETRIES] Dobry den" := by
  have hb : ∀ k, k < 3 + 1 →
      findTranslated ((fun _ => ["no answer"]) k) = none := by
    intro k _
    show findTranslated ["no answer"] = none
    decide
  have h := c1_retry_exhaustion (fun _ => ["no answer"]) ("Dobry den") 3 hb
  refine ⟨h.1, ?_⟩
  rw [h.2]
  decide

/-- C2: after any processed prefix `us` of a run (runs start with an empty
context), the context window holds exactly the last five successful
translations; the context rendered into the next translation call's prompt
is exactly the last three successful translations — hence it has at most
three entries, contains only successful translations (units classified as
retry-exhausted or backend-error contribute nothing, since `successes`
drops them), and lists them in chronological order, oldest first, being a
suffix of the chronological success sequence. -/
theorem c2_context_window (us : List UnitScript) :
    runCtx [] us = lastN 5 (successes us) ∧
    promptContext (runCtx [] us) = lastN 3 (successes us) ∧
    (promptContext (runCtx [] us)).length ≤ 3 ∧
    (promptContext (runCtx [] us)).IsSuffix (successes us) := by
  have h := runCtx_nil_eq us
  have h2 : promptContext (runCtx [] us) = lastN 3 (successes us) := by
    rw [h]
    exact lastN_lastN 3 5 _ (by omega)
  refine ⟨h, h2, ?_, ?_⟩
  · rw [h2]; exact lastN_length_le 3 _
  · rw [h2]; exact lastN_suffix 3 _

/-- C3 counterexample: when the backend call raises, the content written
into the destination is `[OLLAMA TRANSLATION FAILED] ` followed by the
original, not the `[BACKEND ERROR] ` marker the claim states. -/
theorem c3_counterexample :
    (processUnit [] ⟨"Dobry den", Behavior.raises, true⟩).1 =
      ("[OLLAMA TRANSLATION FAILED] Dobry den", failStyle) ∧
    ("[OLLAMA TRANSLATION FAILED] Dobry den" : String) ≠
      "[BACKEND ERROR] Dobry den" :=
  ⟨rfl, by decide⟩

/-- C3 amended: an exception escaping the backend adapter call is caught at
the orchestrator boundary and classified as a backend failure with no
further retries (the context window is left untouched and processing moves
on), and the destination receives `[OLLAMA TRANSLATION FAILED] ` followed
by the original text, styled with red highlight, bold, and white text. -/
theorem c3_backend_exception (ctx : List String) (original : String)
    (fmtOk : Bool) :
    processUnit ctx ⟨original, Behavior.raises, fmtOk⟩ =
      (("[OLLAMA TRANSLATION FAILED] " ++ original, failStyle), ctx) ∧
    failStyle.highlight = some HColor.red ∧
    failStyle.textColor = some (255, 255, 255) ∧
    failStyle.bold = true :=
  ⟨rfl, rfl, rfl, rfl⟩

/-- C5 counterexample: the direct-model (NLLB) variant performs no quote
stripping — when the model's decoded output is wrapped in double quotes,
the text used by the NLLB branch still carries the quotes, although
`stripQuotes` would have removed them. -/
theorem c5_counterexample :
    nllbTranslate (fun _ => "\"Good day\"") ("Dobry den") = "\"Good day\"" ∧
    stripQuotes ("\"Good day\"") = "Good day" ∧
    nllbTranslate (fun _ => "\"Good day\"") ("Dobry den") ≠
      stripQuotes (nllbTranslate (fun _ => "\"Good day\"") ("Dobry den")) := by
  refine ⟨rfl, ?_, ?_⟩ <;> decide

/-- C5 amended: only the prompt-driven variant strips a matching
leading/trailing quotation-mark pair (double or single) from the extracted
answer — its parse is exactly the raw parse followed by `stripQuotes` —
while the direct-model NLLB variant returns the decoded model output
unchanged, with no quote stripping. -/
theorem c5_quote_strip_variants (lines : List String)
    (model : String → String) (text : String) :
    findTranslated lines = (findTranslatedRaw lines).map stripQuotes ∧
    nllbTranslate model text = model text :=
  ⟨findTranslated_eq_strip lines, rfl⟩

theorem shouldMerge_iff (mt : ℚ) (p w : Word) :
    shouldMerge mt p w = true ↔
      (|w.top - p.top| ≤ mt ∧ w.x0 - p.x1 ≤ mt * 2) := by
  simp [shouldMerge]

theorem groupInv_newGroup (page : Nat) (w : Word) :
    groupInv (newGroup page w) :=
  ⟨rfl, rfl⟩

theorem groupInv_extendGroup (g : Group) (w : Word) (h : groupInv g) :
    groupInv (extendGroup g w) := by
  obtain ⟨h1, h2⟩ := h
  cases hw : g.words with
  | nil => rw [hw] at h1; simp [unionBoxes] at h1
  | cons w0 rest =>
    rw [hw] at h1 h2
    simp only [unionBoxes, Option.some.injEq] at h1
    constructor
    · show unionBoxes (g.words ++ [w]) = some (boxUnion g.bbox w)
      rw [hw]
      show some (((rest ++ [w]).foldl boxUnion (wordBox w0))) = _
      rw [List.foldl_append, h1]
      rfl
    · show g.text ++ " " ++ w.text = spaceJoin ((g.words ++ [w]).map Word.text)
      rw [hw, h2]
      simp only [List.cons_append, List.map_cons, List.map_append,
        List.map_nil, spaceJoin, List.foldl_append, List.foldl_cons,
        List.foldl_nil]

theorem groupLoop_inv (mt : ℚ) :
    ∀ (ws : List Word) (g : Group), groupInv g →
      ∀ g' ∈ groupLoop mt g ws, groupInv g' := by
  intro ws
  induction ws with
  | nil =>
    intro g hg g' hg'
    simp only [groupLoop, List.mem_singleton] at hg'
    subst hg'
    exact hg
  | cons w rest ih =>
    intro g hg g' hg'
    rw [groupLoop] at hg'
    cases hb : shouldMerge mt (lastWord g) w with
    | true =>
      rw [hb, if_pos rfl] at hg'
      exact ih (extendGroup g w) (groupInv_extendGroup g w hg) g' hg'
    | false =>
      rw [hb] at hg'
      simp only [Bool.false_eq_true, if_false, List.mem_cons] at hg'
      rcases hg' with h | h
      · subst h; exact hg
      · exact ih (newGroup g.page w) (groupInv_newGroup _ _) g' h

theorem groupWords_inv (mt : ℚ) (page : Nat) (ws : List Word) :
    ∀ g ∈ groupWords mt page ws, groupInv g := by
  cases ws with
  | nil => intro g hg; simp [groupWords] at hg
  | cons w rest =>
    intro g hg
    exact groupLoop_inv mt rest _ (groupInv_newGroup _ _) g hg

theorem groupLoop_mem (mt : ℚ) :
    ∀ (ws : List Word) (g0 g : Group), g ∈ groupLoop mt g0 ws →
      g.page = g0.page ∧ ∀ w ∈ g.words, w ∈ g0.words ∨ w ∈ ws := by
  intro ws
  induction ws with
  | nil =>
    intro g0 g hg
    simp only [groupLoop, List.mem_singleton] at hg
    subst hg
    exact ⟨rfl, fun w hw => Or.inl hw⟩
  | cons w rest ih =>
    intro g0 g hg
    rw [groupLoop] at hg
    cases hb : shouldMerge mt (lastWord g0) w with
    | true =>
      rw [hb, if_pos rfl] at hg
      obtain ⟨hp, hws⟩ := ih (extendGroup g0 w) g hg
      refine ⟨hp, fun x hx => ?_⟩
      rcases hws x hx with h | h
      · rcases List.mem_append.mp h with h' | h'
        · exact Or.inl h'
        · simp only [List.mem_singleton] at h'
          subst h'
          exact Or.inr (List.mem_cons_self _ _)
      · exact Or.inr (List.mem_cons_of_mem _ h)
    | false =>
      rw [hb] at hg
      simp only [Bool.false_eq_true, if_false, List.mem_cons] at hg
      rcases hg with h | h
      · subst h; exact ⟨rfl, fun x hx => Or.inl hx⟩
      · obtain ⟨hp, hws⟩ := ih (newGroup g0.page w) g h
        refine ⟨hp, fun x hx => ?_⟩
        rcases hws x hx with h' | h'
        · simp only [newGroup, List.mem_singleton] at h'
          subst h'
          exact Or.inr (List.mem_cons_self _ _)
        · exact Or.inr (List.mem_cons_of_mem _ h')

theorem groupWords_mem (mt : ℚ) (p : Nat) (ws : List Word) (g : Group)
    (h : g ∈ groupWords mt p ws) :
    g.page = p ∧ ∀ w ∈ g.words, w ∈ ws := by
  cases ws with
  | nil => simp [groupWords] at h
  | cons w rest =>
    obtain ⟨hp, hws⟩ := groupLoop_mem mt rest (newGroup p w) g h
    refine ⟨hp, fun x hx => ?_⟩
    rcases hws x hx with h' | h'
    · simp only [newGroup, List.mem_singleton] at h'
      subst h'
      exact List.mem_cons_self _ _
    · exact List.mem_cons_of_mem _ h'

theorem groupLoop_words_join (mt : ℚ) :
    ∀ (ws : List Word) (g0 : Group),
      ((groupLoop mt g0 ws).map Group.words).flatten = g0.words ++ ws := by
  intro ws
  induction ws with
  | nil => intro g0; simp [groupLoop]
  | cons w rest ih =>
    intro g0
    rw [groupLoop]
    cases hb : shouldMerge mt (lastWord g0) w with
    | true =>
      rw [if_pos rfl, ih (extendGroup g0 w)]
      show (g0.words ++ [w]) ++ rest = g0.words ++ w :: rest
      simp
    | false =>
      rw [if_neg (by simp)]
      simp only [List.map_cons, List.flatten_cons, ih (newGroup g0.page w)]
      show g0.words ++ ([w] ++ rest) = g0.words ++ w :: rest
      simp

theorem groupWords_words_join (mt : ℚ) (page : Nat) (ws : List Word) :
    ((groupWords mt page ws).map Group.words).flatten = ws := by
  cases ws with
  | nil => rfl
  | cons w rest =>
    rw [groupWords, groupLoop_words_join]
    rfl

theorem extractPagesFrom_mem (mt : ℚ) :
    ∀ (pages : List (List Word)) (n : Nat) (g : Group),
      g ∈ extractPagesFrom mt n pages →
      ∃ i ws, pages[i]? = some ws ∧ g ∈ groupWords mt (n + i) ws := by
  intro pages
  induction pages with
  | nil => intro n g hg; simp [extractPagesFrom] at hg
  | cons ws rest ih =>
    intro n g hg
    rw [extractPagesFrom] at hg
    rcases List.mem_append.mp hg with h | h
    · exact ⟨0, ws, by simp, by rw [Nat.add_zero]; exact h⟩
    · obtain ⟨i, ws', h1, h2⟩ := ih (n + 1) g h
      refine ⟨i + 1, ws', by simpa using h1, ?_⟩
      have he : n + (i + 1) = n + 1 + i := by omega
      rw [he]
      exact h2

/-- C6: the grouping loop merges the next word into the open group exactly
when `|word.top − prev.top| ≤ mergeThreshold` and `word.left − prev.right ≤
2·mergeThreshold`, where `prev` is the last word added to the open group;
both comparisons are inclusive (equality merges), and whenever either bound
is exceeded the open group is emitted and a fresh group is seeded instead. -/
theorem c6_merge_boundary (mt : ℚ) (g : Group) (w : Word) :
    (groupLoop mt g [w] = [extendGroup g w] ↔
      (|w.top - (lastWord g).top| ≤ mt ∧ w.x0 - (lastWord g).x1 ≤ mt * 2)) ∧
    (groupLoop mt g [w] = [g, newGroup g.page w] ↔
      ¬(|w.top - (lastWord g).top| ≤ mt ∧
        w.x0 - (lastWord g).x1 ≤ mt * 2)) := by
  cases hb : shouldMerge mt (lastWord g) w with
  | true =>
    have hp : |w.top - (lastWord g).top| ≤ mt ∧
        w.x0 - (lastWord g).x1 ≤ mt * 2 :=
      (shouldMerge_iff mt (lastWord g) w).mp hb
    have hloop : groupLoop mt g [w] = [extendGroup g w] := by
      simp [groupLoop, hb]
    refine ⟨iff_of_true hloop hp, iff_of_false ?_ (not_not_intro hp)⟩
    rw [hloop]
    simp
  | false =>
    have hp : ¬(|w.top - (lastWord g).top| ≤ mt ∧
        w.x0 - (lastWord g).x1 ≤ mt * 2) := by
      intro hc
      rw [← shouldMerge_iff mt (lastWord g) w, hb] at hc
      exact Bool.false_ne_true hc
    have hloop : groupLoop mt g [w] = [g, newGroup g.page w] := by
      simp [groupLoop, hb]
    refine ⟨iff_of_false ?_ hp, iff_of_true hloop hp⟩
    rw [hloop]
    simp

/-- C7: every group emitted by the layout extraction has a bounding box
equal to the coordinate union (componentwise min of left/top, max of
right/bottom) of its member words' boxes, and text equal to its member
words' texts joined by single spaces in encounter order. -/
theorem c7_bbox_union (mt : ℚ) (pages : List (List Word)) (g : Group)
    (h : g ∈ extract_text_with_layout mt pages) :
    unionBoxes g.words = some g.bbox ∧
    g.text = spaceJoin (g.words.map Word.text) := by
  obtain ⟨i, ws, _, hg⟩ := extractPagesFrom_mem mt pages 1 g h
  exact groupWords_inv mt _ ws g hg

/-- C8: a page with zero words yields zero groups; the final open group is
flushed at the end of every page, so the concatenation of the emitted
groups' member words of a page is exactly that page's word sequence (every
word belongs to exactly one group); and every emitted group belongs to a
single page: its page number identifies one input page and all of its
member words come from that page. -/
theorem c8_page_partition (mt : ℚ) (page : Nat) (pages : List (List Word)) :
    groupWords mt page [] = [] ∧
    (∀ ws : List Word, ((groupWords mt page ws).map Group.words).flatten = ws) ∧
    (∀ g ∈ extract_text_with_layout mt pages,
      ∃ i ws, pages[i]? = some ws ∧ g.page = i + 1 ∧
        ∀ w ∈ g.words, w ∈ ws) := by
  refine ⟨rfl, fun ws => groupWords_words_join mt page ws, fun g hg => ?_⟩
  obtain ⟨i, ws, h1, h2⟩ := extractPagesFrom_mem mt pages 1 g hg
  obtain ⟨hp, hw⟩ := groupWords_mem mt (1 + i) ws g h2
  refine ⟨i, ws, h1, ?_, hw⟩
  rw [hp]
  omega

/-- Witness for C7 at the spec's scenario: two words merged into one group
whose box is the coordinate union `(0, 100, 45, 101)`. -/
theorem c7_bbox_union_witness :
    unionBoxes [⟨"Dobry", 0, 100, 20, 101⟩, ⟨"den", 25, 101, 45, 101⟩] =
      some ⟨0, 100, 45, 101⟩ ∧
    ("Dobry den" : String) =
      spaceJoin (([⟨"Dobry", 0, 100, 20, 101⟩, ⟨"den", 25, 101, 45, 101⟩] :
        List Word).map Word.text) := by
  have hx : extract_text_with_layout 10
      [[⟨"Dobry", 0, 100, 20, 101⟩, ⟨"den", 25, 101, 45, 101⟩]] =
      [⟨"Dobry den", ⟨0, 100, 45, 101⟩, 1,
        [⟨"Dobry", 0, 100, 20, 101⟩, ⟨"den", 25, 101, 45, 101⟩]⟩] := by
    norm_num [extract_text_with_layout, extractPagesFrom, groupWords,
      groupLoop, shouldMerge, lastWord, extendGroup, newGroup, wordBox,
      boxUnion, min_def, max_def]
    rfl
  have h := c7_bbox_union 10
    [[⟨"Dobry", 0, 100, 20, 101⟩, ⟨"den", 25, 101, 45, 101⟩]]
    ⟨"Dobry den", ⟨0, 100, 45, 101⟩, 1,
      [⟨"Dobry", 0, 100, 20, 101⟩, ⟨"den", 25, 101, 45, 101⟩]⟩
    (by rw [hx]; exact List.mem_singleton.mpr rfl)
  exact ⟨h.1, h.2⟩

/-- Witness for C8: an empty page yields no groups, a two-word page whose
words are far apart is partitioned into two groups covering both words, and
a concrete emitted group carries the page it came from. -/
theorem c8_page_partition_witness :
    groupWords 10 2 [] = [] ∧
    ((groupWords 10 2 [⟨"a", 0, 0, 5, 8⟩, ⟨"b", 100, 0, 110, 8⟩]).map
      Group.words).flatten = [⟨"a", 0, 0, 5, 8⟩, ⟨"b", 100, 0, 110, 8⟩] ∧
    (∃ i ws,
      ([[], [⟨"a", 0, 0, 5, 8⟩, ⟨"b", 100, 0, 110, 8⟩]] :
        List (List Word))[i]? = some ws ∧
      (⟨"a", ⟨0, 0, 5, 8⟩, 2, [⟨"a", 0, 0, 5, 8⟩]⟩ : Group).page = i + 1 ∧
      ∀ w ∈ (⟨"a", ⟨0, 0, 5, 8⟩, 2, [⟨"a", 0, 0, 5, 8⟩]⟩ : Group).words,
        w ∈ ws) := by
  have h := c8_page_partition 10 2
    [[], [⟨"a", 0, 0, 5, 8⟩, ⟨"b", 100, 0, 110, 8⟩]]
  have hx : extract_text_with_layout 10
      [[], [⟨"a", 0, 0, 5, 8⟩, ⟨"b", 100, 0, 110, 8⟩]] =
      [⟨"a", ⟨0, 0, 5, 8⟩, 2, [⟨"a", 0, 0, 5, 8⟩]⟩,
       ⟨"b", ⟨100, 0, 110, 8⟩, 2, [⟨"b", 100, 0, 110, 8⟩]⟩] := by
    norm_num [extract_text_with_layout, extractPagesFrom, groupWords,
      groupLoop, shouldMerge, lastWord, extendGroup, newGroup, wordBox,
      boxUnion, min_def, max_def]
  exact ⟨h.1, h.2.1 _, h.2.2 _ (by rw [hx]; exact List.mem_cons_self _ _)⟩

theorem runSteps_ok (faults : Nat → Bool) (h : ∀ n, faults n = false) :
    ∀ (k a : Nat), runSteps faults a k = Except.ok (a + k) := by
  intro k
  induction k with
  | zero => intro a; simp [runSteps]
  | succ n ih =>
    intro a
    rw [runSteps, h a]
    simp only [Bool.false_eq_true, if_false]
    rw [ih (a + 1)]
    congr 1
    omega

theorem applyBody_ok (faults : Nat → Bool) (runs : List RunFmt) (t : String)
    (c : String) (r : RunFmt)
    (h : applyBody faults runs t = Except.ok (c, r)) :
    c = t ∧ r = finalFmt runs := by
  unfold applyBody at h
  cases hs : runSteps faults 0 (bodySteps runs) with
  | error e => rw [hs] at h; simp at h
  | ok a =>
    rw [hs] at h
    simp only [Except.ok.injEq, Prod.mk.injEq] at h
    exact ⟨h.1.symm, h.2.symm⟩

theorem appliedFmt_bold (fmt : RunFmt) : (appliedFmt fmt).bold = fmt.bold := by
  rcases hb : fmt.bold with _ | b <;> simp [appliedFmt, hb]

theorem appliedFmt_italic (fmt : RunFmt) :
    (appliedFmt fmt).italic = fmt.italic := by
  rcases hb : fmt.italic with _ | b <;> simp [appliedFmt, hb]

theorem appliedFmt_underline (fmt : RunFmt) :
    (appliedFmt fmt).underline = fmt.underline := by
  rcases hb : fmt.underline with _ | b <;> simp [appliedFmt, hb]

/-- C9: the formatting-apply operation is a total boolean-returning
function (it never raises): it returns `true` when no fault occurs, any
fault of a destination primitive during replacement or attribute
application makes it return `false`, and on success the new run carries the
translated text while each tri-state attribute equals the captured first
run's attribute — in particular an unset (none) attribute is never forced
onto the new content. -/
theorem c9_formatting_safe (faults : Nat → Bool) (runs : List RunFmt)
    (t : String) :
    ((∀ n, faults n = false) →
      apply_translation_with_formatting faults runs t = true) ∧
    (∀ e, applyBody faults runs t = Except.error e →
      apply_translation_with_formatting faults runs t = false) ∧
    (∀ c r, applyBody faults runs t = Except.ok (c, r) →
      apply_translation_with_formatting faults runs t = true ∧ c = t ∧
      r.bold = (headFmtOf runs).bold ∧ r.italic = (headFmtOf runs).italic ∧
      r.underline = (headFmtOf runs).underline) := by
  refine ⟨?_, ?_, ?_⟩
  · intro h
    simp only [apply_translation_with_formatting, applyBody]
    rw [runSteps_ok faults h]
  · intro e he
    unfold apply_translation_with_formatting
    rw [he]
  · intro c r h
    have happ : apply_translation_with_formatting faults runs t = true := by
      unfold apply_translation_with_formatting
      rw [h]
    obtain ⟨hc, hr⟩ := applyBody_ok faults runs t c r h
    subst hc
    cases runs with
    | nil =>
      subst hr
      exact ⟨happ, rfl, rfl, rfl, rfl⟩
    | cons fmt rest =>
      subst hr
      exact ⟨happ, rfl, appliedFmt_bold fmt, appliedFmt_italic fmt,
        appliedFmt_underline fmt⟩

/-- Witness for C9: a fault-free application succeeds, a faulting one
reports `false`, and the tri-state conclusion holds for a concrete run. -/
theorem c9_formatting_safe_witness :
    apply_translation_with_formatting (fun _ => false)
      [⟨some true, none, none, some "Arial", some 12, none⟩] ("Hello") =
      true ∧
    apply_translation_with_formatting (fun _ => true) [] ("Hello") = false ∧
    (⟨some true, none, none, some "Arial", some 12, none⟩ :
        RunFmt).underline =
      (headFmtOf [⟨some true, none, none, some "Arial", some 12,
        none⟩]).underline := by
  refine ⟨?_, ?_, ?_⟩
  · exact (c9_formatting_safe (fun _ => false)
      [⟨some true, none, none, some "Arial", some 12, none⟩] ("Hello")).1
      (fun n => rfl)
  · exact (c9_formatting_safe (fun _ => true) [] ("Hello")).2.1 () rfl
  · exact ((c9_formatting_safe (fun _ => false)
      [⟨some true, none, none, some "Arial", some 12, none⟩] ("Hello")).2.2
      ("Hello") ⟨some true, none, none, some "Arial", some 12, none⟩
      rfl).2.2.2.2

/-- C4 counterexample: in the Ollama pipeline (the enabled one), a unit
whose translation succeeds but whose formatting application fails receives
the `[OLLAMA FORMATTING ERROR - MANUAL REVIEW NEEDED] ` marker with blue
text, not the claimed `[TRANSLATION ERROR - MANUAL REVIEW NEEDED] ` marker
with red text. -/
theorem c4_counterexample :
    (processUnit [] ⟨"Dobry den",
        Behavior.responds (fun _ => ["translated: Good day"]), false⟩).1 =
      ("[OLLAMA FORMATTING ERROR - MANUAL REVIEW NEEDED] Dobry den",
        ollamaFormatErrStyle) ∧
    ("[OLLAMA FORMATTING ERROR - MANUAL REVIEW NEEDED] Dobry den" : String) ≠
      "[TRANSLATION ERROR - MANUAL REVIEW NEEDED] Dobry den" ∧
    ollamaFormatErrStyle.textColor ≠ some (255, 0, 0) := by
  refine ⟨by decide, by decide, by decide⟩

/-- C4 corrected: when a unit's translation succeeds but formatting fails,
the Ollama branch writes `[OLLAMA FORMATTING ERROR - MANUAL REVIEW NEEDED] `
followed by the original with yellow highlight, bold, blue text, while the
NLLB branch writes `[TRANSLATION ERROR - MANUAL REVIEW NEEDED] ` followed by
the original with yellow highlight, bold, red text; in both branches the
marker text contains the literal original content, so no content is
silently lost. -/
theorem c4_format_failure_markers (ctx : List String) (u : UnitScript)
    (t : String) (hs : unitSuccess u = some t)
    (hf : u.formattingOk = false) :
    (processUnit ctx u).1 =
      ("[OLLAMA FORMATTING ERROR - MANUAL REVIEW NEEDED] " ++ u.original,
        ollamaFormatErrStyle) ∧
    nllbFormatFallback u.original =
      ("[TRANSLATION ERROR - MANUAL REVIEW NEEDED] " ++ u.original,
        nllbFormatErrStyle) ∧
    (∃ p, (processUnit ctx u).1.1 = p ++ u.original) ∧
    (∃ p, (nllbFormatFallback u.original).1 = p ++ u.original) ∧
    ollamaFormatErrStyle.highlight = some HColor.yellow ∧
    ollamaFormatErrStyle.bold = true ∧
    nllbFormatErrStyle.highlight = some HColor.yellow ∧
    nllbFormatErrStyle.bold = true := by
  obtain ⟨orig, b, fok⟩ := u
  cases b with
  | raises => simp [unitSuccess, unitTranslated] at hs
  | responds outputs =>
    have hf' : fok = false := hf
    subst hf'
    have hcond : pyStartsWith
        (postProcess (translate_with_context outputs orig 3))
        ("[TRANSLATION FAILED AFTER") = false := by
      cases hc : pyStartsWith
          (postProcess (translate_with_context outputs orig 3))
          ("[TRANSLATION FAILED AFTER") with
      | false => rfl
      | true => simp [unitSuccess, unitTranslated, hc] at hs
    have hmain : (processUnit ctx ⟨orig, Behavior.responds outputs,
        false⟩).1 =
        ("[OLLAMA FORMATTING ERROR - MANUAL REVIEW NEEDED] " ++ orig,
          ollamaFormatErrStyle) := by
      simp [processUnit, hcond]
    refine ⟨hmain, rfl,
      ⟨"[OLLAMA FORMATTING ERROR - MANUAL REVIEW NEEDED] ", ?_⟩,
      ⟨"[TRANSLATION ERROR - MANUAL REVIEW NEEDED] ", rfl⟩,
      rfl, rfl, rfl, rfl⟩
    rw [hmain]

/-- Witness for C4 at a concrete unit with a successful translation and a
failing formatting application. -/
theorem c4_format_failure_markers_witness :
    (processUnit [] ⟨"Dobry den",
        Behavior.responds (fun _ => ["translated: Good day"]), false⟩).1 =
      ("[OLLAMA FORMATTING ERROR - MANUAL REVIEW NEEDED] Dobry den",
        ollamaFormatErrStyle) ∧
    nllbFormatFallback ("Dobry den") =
      ("[TRANSLATION ERROR - MANUAL REVIEW NEEDED] Dobry den",
        nllbFormatErrStyle) := by
  have h := c4_format_failure_markers []
    ⟨"Dobry den", Behavior.responds (fun _ => ["translated: Good day"]),
      false⟩
    ("Good day") (by decide) rfl
  exact ⟨h.1, h.2.1⟩

/-- C10: when a unit's translation succeeds but its formatting application
fails, the successful translated text is recorded into the context window
(becoming its newest entry) before formatting is attempted, so the prompt
context of the immediately following unit contains that translated text
even though the document shows the formatting-error marker for this unit. -/
theorem c10_context_records_before_formatting (ctx : List String)
    (u : UnitScript) (t : String) (hs : unitSuccess u = some t)
    (hf : u.formattingOk = false) :
    (processUnit ctx u).2 = pushContext ctx t ∧
    t ∈ promptContext ((processUnit ctx u).2) ∧
    (processUnit ctx u).1.1 =
      "[OLLAMA FORMATTING ERROR - MANUAL REVIEW NEEDED] " ++ u.original := by
  obtain ⟨orig, b, fok⟩ := u
  cases b with
  | raises => simp [unitSuccess, unitTranslated] at hs
  | responds outputs =>
    have hf' : fok = false := hf
    subst hf'
    have hcond : pyStartsWith
        (postProcess (translate_with_context outputs orig 3))
        ("[TRANSLATION FAILED AFTER") = false := by
      cases hc : pyStartsWith
          (postProcess (translate_with_context outputs orig 3))
          ("[TRANSLATION FAILED AFTER") with
      | false => rfl
      | true => simp [unitSuccess, unitTranslated, hc] at hs
    have ht : postProcess (translate_with_context outputs orig 3) = t := by
      simpa [unitSuccess, unitTranslated, hcond] using hs
    rw [ht] at hcond
    have h2 : (processUnit ctx ⟨orig, Behavior.responds outputs,
        false⟩).2 = pushContext ctx t := by
      simp [processUnit, hcond, ht]
    refine ⟨h2, ?_, by simp [processUnit, hcond, ht]⟩
    rw [h2]
    obtain ⟨l', hl⟩ := pushContext_append ctx t
    rw [hl]
    exact mem_lastN_append_singleton l' t

/-- Witness for C10 at a concrete unit: the translated text is the newest
prompt-context entry while the document gets the error marker. -/
theorem c10_context_records_before_formatting_witness :
    (processUnit [] ⟨"Dobry den",
        Behavior.responds (fun _ => ["translated: Good day"]),
        false⟩).2 = pushContext [] ("Good day") ∧
    ("Good day" : String) ∈ promptContext ((processUnit []
      ⟨"Dobry den", Behavior.responds (fun _ => ["translated: Good day"]),
        false⟩).2) ∧
    (processUnit [] ⟨"Dobry den",
        Behavior.responds (fun _ => ["translated: Good day"]),
        false⟩).1.1 =
      "[OLLAMA FORMATTING ERROR - MANUAL REVIEW NEEDED] " ++ "Dobry den" := by
  exact c10_context_records_before_formatting []
    ⟨"Dobry den", Behavior.responds (fun _ => ["translated: Good day"]),
      false⟩
    ("Good day") (by decide) rfl

end TranslatePDF
